import Mathlib

/-!
Shallow embedding of `src/idp_mdf_merge.py` (Python 2): the merge core
(`merge_mdf`), the path validator (`valid_path`) and the description
normalizer (`clean_desc`), together with the Python string/path primitives
they rely on (`str.replace`, `os.path.splitext`, `os.path.basename`,
substring containment, and the port parsing done by
`httplib.HTTPConnection.__init__`).

XML `ElementTree` elements are modelled as a tree of `Elem` values:
tag, attribute list (attribute values are `Option String` because the code
stores `elem.find(..).text`, which may be Python `None`), `text`, `tail`
and ordered children.  Filesystem existence, network HEAD requests and
XML parsing are oracles bundled in an `Env`; Python exceptions are the
`PyExc` error type of an `Except` monad.  Files written by the code (the
merged output and the `_ERR.log` side file) are recorded in the returned
`MergeResult` rather than performed.
-/

/-- Python exceptions that the modelled code can raise. -/
inductive PyExc where
  | attributeError
  | invalidURL
  | parseError
  | indexError
  | connError
deriving DecidableEq, Repr

/-- An `xml.etree.ElementTree` element: tag, attributes (values may be
Python `None`), `text`, `tail`, and the ordered list of child elements. -/
inductive Elem where
  | mk (tag : String) (attrs : List (String × Option String)) (text : Option String)
       (tail : Option String) (children : List Elem)

/-- Tag of an element. -/
def Elem.tag : Elem → String
  | .mk t _ _ _ _ => t

/-- Attribute list of an element. -/
def Elem.attrs : Elem → List (String × Option String)
  | .mk _ a _ _ _ => a

/-- Text of an element (`None` is `none`). -/
def Elem.text : Elem → Option String
  | .mk _ _ tx _ _ => tx

/-- Tail of an element. -/
def Elem.tail : Elem → Option String
  | .mk _ _ _ tl _ => tl

/-- Children of an element, in document order. -/
def Elem.children : Elem → List Elem
  | .mk _ _ _ _ ch => ch

/-- Python dict-style set on an attribute association list: replace the
first binding of the key, or append a new binding at the end. -/
def setAttrList (k : String) (v : Option String) : List (String × Option String) →
    List (String × Option String)
  | [] => [(k, v)]
  | (k', v') :: rest =>
      if k' = k then (k, v) :: rest else (k', v') :: setAttrList k v rest

/-- Model of `elem.set(k, v)`. -/
def Elem.setA (k : String) (v : Option String) : Elem → Elem
  | .mk t a tx tl ch => .mk t (setAttrList k v a) tx tl ch

/-- Model of `elem.tail = v`. -/
def Elem.setTail (v : Option String) : Elem → Elem
  | .mk t a tx _ ch => .mk t a tx v ch

/-- Model of `elem.find(tag)`: the first direct child with the given tag. -/
def findChild (t : String) : List Elem → Option Elem
  | [] => none
  | e :: es => if e.tag = t then some e else findChild t es

/-- Model of `elem.findall(tag)`: all direct children with the given tag. -/
def findAllTag (t : String) (l : List Elem) : List Elem :=
  l.filter (fun e => e.tag = t)

/-- Model of `elem.findtext(tag)`: text of the first matching direct child,
`''` when that child's text is `None`, and `none` when there is no such
child (the Python default). -/
def findText (t : String) (e : Elem) : Option String :=
  (findChild t e.children).map (fun se => se.text.getD "")

/-- Boolean prefix test on character lists. -/
def isPrefixOfB : List Char → List Char → Bool
  | [], _ => true
  | _ :: _, [] => false
  | a :: as, b :: bs => a == b && isPrefixOfB as bs

/-- Occurrence test for a pattern inside a character list. -/
def containsSubList (pat : List Char) : List Char → Bool
  | [] => isPrefixOfB pat []
  | c :: rest => isPrefixOfB pat (c :: rest) || containsSubList pat rest

/-- Model of Python `sub in s` (substring containment). -/
def pyContains (s sub : String) : Bool :=
  containsSubList sub.data s.data

/-- Left-to-right, non-overlapping replacement on character lists; `fuel`
bounds the recursion (any `fuel ≥ s.length` gives Python's semantics for a
nonempty pattern). -/
def replaceFuel (pat repl : List Char) : Nat → List Char → List Char
  | _, [] => []
  | 0, s => s
  | Nat.succ n, c :: cs =>
      if isPrefixOfB pat (c :: cs) then repl ++ replaceFuel pat repl n ((c :: cs).drop pat.length)
      else c :: replaceFuel pat repl n cs

/-- Model of Python `s.replace(pat, repl)`: replaces every non-overlapping
occurrence left to right; with an empty pattern Python inserts `repl`
between every character and at both ends (`'ab'.replace('', 'X') = 'XaXbX'`). -/
def pyReplace (s pat repl : String) : String :=
  if pat = "" then
    repl ++ String.join (s.data.map (fun c => String.singleton c ++ repl))
  else
    ⟨replaceFuel pat.data repl.data (s.data.length + 1) s.data⟩

/-- Rightmost index of a character in a list (`s.rfind(c)`), `none` when
absent. -/
def lastIndexOf (c : Char) : List Char → Option Nat
  | [] => none
  | a :: as =>
      match lastIndexOf c as with
      | some i => some (i + 1)
      | none => if a = c then some 0 else none

/-- Model of POSIX `os.path.splitext`: split off the extension at the last
dot of the final path component, unless every character between the last
separator and that dot is itself a dot (so `'.bashrc'` has no extension). -/
def splitext (p : String) : String × String :=
  let cs := p.data
  match lastIndexOf '.' cs with
  | none => (p, "")
  | some d =>
      let start :=
        match lastIndexOf '/' cs with
        | none => 0
        | some sp => sp + 1
      if start ≤ d then
        if ((cs.drop start).take (d - start)).any (fun c => c ≠ '.') then
          (⟨cs.take d⟩, ⟨cs.drop d⟩)
        else (p, "")
      else (p, "")

/-- Model of POSIX `os.path.basename`: everything after the last `/`. -/
def basenameP (p : String) : String :=
  match lastIndexOf '/' p.data with
  | none => p
  | some i => ⟨p.data.drop (i + 1)⟩

/-- Source function `clean_desc`: `desc.replace('\n', ' ')`. -/
def clean_desc (desc : String) : String :=
  pyReplace desc "\n" " "

/-- Python `str(x)` for an `Option String` value (`None` prints as
`"None"`), as used by `str.format` in the duplicate-SIN warning. -/
def pyStrOpt : Option String → String
  | none => "None"
  | some s => s

/-- Environment oracles for the effects the code performs: local
filesystem existence (`os.path.exists`), the status of an HTTP(S) `HEAD`
request once a connection object was successfully built (a raised socket
error is an `Except.error`), and XML parsing of a file
(`ET.parse(f).getroot()`, raising `parseError` on malformed input). -/
structure Env where
  fs_exists : String → Bool
  conn : String → Except PyExc Nat
  parse : String → Except PyExc Elem

/-- All-digit test, modelling which strings Python `int()` accepts in the
port position (sign/whitespace variants are not relevant to the inputs
the code can produce there). -/
def isAllDigits (s : String) : Bool :=
  !s.data.isEmpty && s.data.all (fun c => c.isDigit)

/-- Substring after the last `:` of a location string, `none` when the
string has no colon.  `httplib.HTTPConnection.__init__` parses this as the
port: a nonempty, nonnumeric suffix raises `InvalidURL` right in the
constructor; an empty suffix selects the default port. -/
def portSuffix (s : String) : Option String :=
  match lastIndexOf ':' s.data with
  | none => none
  | some i => some ⟨s.data.drop (i + 1)⟩

/-- Source function `valid_path`.  The code passes the WHOLE location
string as the `host` argument of `httplib.HTTP(S)Connection`, so for a URL
the constructor's port parsing sees everything after the last colon (for
`http://example.com` that is `//example.com`, nonnumeric, hence
`InvalidURL` is raised).  When a connection object is built, the HEAD
request/response is the `Env.conn` oracle and the function returns
`status == 200`.  For a non-URL it returns `os.path.exists`. -/
def valid_path (env : Env) (filename : String) : Except PyExc Bool :=
  if pyContains filename "http://" || pyContains filename "https://" then
    match portSuffix filename with
    | some suf =>
        if suf ≠ "" && !isAllDigits suf then throw PyExc.invalidURL
        else do
          let status ← env.conn filename
          pure (status == 200)
    | none => do
        let status ← env.conn filename
        pure (status == 200)
  else
    pure (env.fs_exists filename)

/-- Guard for Python attribute access on a possibly-`None` value:
`limb.find('SIN').text` raises `AttributeError` when `find` returned
`None`. -/
def orAttr : Option Elem → Except PyExc Elem
  | none => throw PyExc.attributeError
  | some e => pure e

mutual
/-- Model of the loop `for desc in limb.iter('Description'):
desc.text = clean_desc(desc.text)`: pre-order traversal rewriting the text
of every `Description`-tagged node (including the root of the subtree when
it has that tag); `clean_desc(None)` raises `AttributeError` because
`None` has no `replace` method. -/
def cleanE : Elem → Except PyExc Elem
  | .mk t a tx tl ch => do
    let tx' ← if t == "Description" then
        match tx with
        | none => throw PyExc.attributeError
        | some s => pure (some (clean_desc s))
      else pure tx
    let ch' ← cleanL ch
    pure (.mk t a tx' tl ch')

/-- Traversal of `cleanE` over a sibling list, in document order. -/
def cleanL : List Elem → Except PyExc (List Elem)
  | [] => pure []
  | e :: es => do pure ((← cleanE e) :: (← cleanL es))
end

mutual
/-- Model of the loop `for msg in limb.iter('Message'): if meta: ...`:
pre-order traversal over every `Message`-tagged node; when `meta` is set
it runs `msg.set('min', msg.find('MIN').text)` then
`msg.set('name', msg.find('Name').text)`, raising `AttributeError` when a
child is absent, and otherwise it is a pure walk. -/
def annMsgE (meta : Bool) : Elem → Except PyExc Elem
  | .mk t a tx tl ch => do
    let a' ← if meta && t == "Message" then do
        let minE ← orAttr (findChild "MIN" ch)
        let nameE ← orAttr (findChild "Name" ch)
        pure (setAttrList "name" nameE.text (setAttrList "min" minE.text a))
      else pure a
    let ch' ← annMsgL meta ch
    pure (.mk t a' tx tl ch')

/-- Traversal of `annMsgE` over a sibling list, in document order. -/
def annMsgL (meta : Bool) : List Elem → Except PyExc (List Elem)
  | [] => pure []
  | e :: es => do pure ((← annMsgE meta e) :: (← annMsgL meta es))
end

mutual
/-- Decidable check that no node of a subtree has `text = some ""`.
`ET.parse` can never produce an element whose `text` is the empty string
(an empty element parses to `text = None`), so every tree returned by the
real parser satisfies this. -/
def noEmptyE : Elem → Bool
  | .mk _ _ tx _ ch => tx ≠ some "" && noEmptyL ch

/-- List version of `noEmptyE`. -/
def noEmptyL : List Elem → Bool
  | [] => true
  | e :: es => noEmptyE e && noEmptyL es
end

/-- Tail of the per-`limb` processing, after the optional `sin`/`name`
annotation: annotate nested `Message` nodes when `meta` is set, then
normalize every `Description` text; pair the result with the SIN text. -/
def processLimbCore (meta : Bool) (service : Option String) (limb1 : Elem) :
    Except PyExc (Option String × Elem) := do
  let limb2 ← annMsgE meta limb1
  let limb3 ← cleanE limb2
  pure (service, limb3)

/-- Per-`limb` processing done by the body of `for limb in branch[0]`
before the dedup decision, in source order: read `limb.find('SIN').text`,
optionally set the `sin`/`name` attributes (reading `limb.find('Name')`),
annotate nested `Message` nodes when `meta` is set, then normalize every
`Description` text.  Returns the SIN text (`service`) and the processed
element. -/
def processLimb (meta : Bool) (limb : Elem) : Except PyExc (Option String × Elem) := do
  let sinE ← orAttr (findChild "SIN" limb.children)
  let service := sinE.text
  if meta then do
    let nameE ← orAttr (findChild "Name" limb.children)
    processLimbCore meta service ((limb.setA "sin" service).setA "name" nameE.text)
  else
    processLimbCore meta service limb

/-- Accumulator of the merge loop: the `services` list of seen SIN texts,
the children appended to the `Services` trunk, and the `exceptions`
diagnostic list. -/
structure CState where
  services : List (Option String)
  trunk : List Elem
  exceptions : List String

/-- Text of the duplicate-SIN warning, with Python's `str` rendering of a
possibly-`None` SIN. -/
def dupWarning (f : String) (sin : Option String) : String :=
  "WARNING: Found duplicate SIN in \"" ++ f ++ "\" Services - ignoring SIN " ++ pyStrOpt sin

/-- Tail fixup applied to an accepted element (lines 324-325): when its
tail is exactly `'\n  '` it becomes `'\n    '`. -/
def tailFix (e : Elem) : Elem :=
  if e.tail = some "\n  " then e.setTail (some "\n    ") else e

/-- One iteration of `for limb in branch[0]`: process the element, then
either collect it (appending its SIN to `services`, adjusting its tail,
and appending it to the trunk) or record the duplicate-SIN warning and
drop it. -/
def collectLimb (meta : Bool) (f : String) (st : CState) (limb : Elem) :
    Except PyExc CState := do
  let r ← processLimb meta limb
  let service := r.1
  let limb' := r.2
  if service ∈ st.services then
    pure { st with exceptions := st.exceptions ++ [dupWarning f service] }
  else
    pure { st with services := st.services ++ [service], trunk := st.trunk ++ [tailFix limb'] }

/-- One iteration of `for f in files`: validate the path (an invalid path
records a diagnostic and `break`s, signalled by the returned flag), parse,
and when the root has a `Services` child iterate over the children of
`branch[0]` (the FIRST child of the root, which the code assumes is the
`Services` container); otherwise record the no-Services warning. -/
def processFile (env : Env) (meta : Bool) (st : CState) (f : String) :
    Except PyExc (CState × Bool) := do
  let ok ← valid_path env f
  if !ok then
    pure ({ st with exceptions := st.exceptions ++
            ["Source file/path " ++ f ++ " does not exist"] }, true)
  else do
    let branch ← env.parse f
    if (findAllTag "Services" branch.children).isEmpty then
      pure ({ st with exceptions := st.exceptions ++
              ["WARNING: Invalid Message Definition File - no Services in " ++ f] }, false)
    else
      match branch.children with
      | [] => throw PyExc.indexError
      | c :: _ => do
          let st' ← c.children.foldlM (collectLimb meta f) st
          pure (st', false)

/-- The `for f in files` loop, honouring the `break` after an invalid
source path. -/
def processFiles (env : Env) (meta : Bool) : CState → List String → Except PyExc CState
  | st, [] => pure st
  | st, f :: fs => do
    let r ← processFile env meta st f
    if r.2 then pure r.1 else processFiles env meta r.1 fs

/-- Lexicographic (byte-wise, as Python 2 compares `str`) strict order on
character lists. -/
def charListLt : List Char → List Char → Bool
  | [], [] => false
  | [], _ :: _ => true
  | _ :: _, [] => false
  | a :: as, b :: bs => if a < b then true else if b < a then false else charListLt as bs

/-- Lexicographic strict order on strings. -/
def strLt (a b : String) : Bool :=
  charListLt a.data b.data

/-- Python 2 `<=` on sort keys of type `Optional[str]`: `None` sorts below
every string, strings compare lexicographically. -/
def keyLe : Option String → Option String → Bool
  | none, _ => true
  | some _, none => false
  | some a, some b => !strLt b a

/-- Strict companion of `keyLe`. -/
def keyLt : Option String → Option String → Bool
  | none, none => false
  | none, some _ => true
  | some _, none => false
  | some a, some b => strLt a b

/-- Comparison used by the model of `data.sort()` on `(key, element)`
pairs.  Python compares the tuples themselves; ties on the key would fall
through to Python 2's arbitrary comparison of `Element` objects, which is
unreachable here because the dedup loop makes all keys distinct, so
comparing by key alone is faithful on every reachable input. -/
def pairLe (p q : Option String × Elem) : Prop :=
  keyLe p.1 q.1 = true

instance : DecidableRel pairLe :=
  fun p q => instDecidableEqBool (keyLe p.1 q.1) true

/-- Model of `data.sort()` (ascending, stable sort by key). -/
def sortPairs (l : List (Option String × Elem)) : List (Option String × Elem) :=
  l.insertionSort pairLe

/-- Sort key used at output time: `elem.findtext("SIN")`. -/
def svcKey (e : Elem) : Option String :=
  findText "SIN" e

/-- Model of `trunk[i].tail = v`: Python raises `IndexError` when the
index is out of range. -/
def setTailAt (i : Nat) (v : Option String) : List Elem → Except PyExc (List Elem)
  | [] => throw PyExc.indexError
  | e :: es =>
      match i with
      | 0 => pure (e.setTail v :: es)
      | Nat.succ n => do pure (e :: (← setTailAt n v es))

/-- Namespace URI registered on the root before writing. -/
def NS_URI : String := "http://www.w3.org/2001/XMLSchema"

/-- The document the code serializes: the `MessageDefinition` root built
at the start of the run (with its whitespace `text`/`tail` and the
`xmlns:xsd` attribute set just before `tree.write`), containing the single
`Services` trunk whose children are the collected, sorted elements. -/
def mkDoc (trunkChildren : List Elem) : Elem :=
  Elem.mk "MessageDefinition" [("xmlns:xsd", some NS_URI)] (some "\n  ") (some "\n")
    [Elem.mk "Services" [] (some "\n \t") (some "\n") trunkChildren]

/-- Service elements of a merged document: children of its `Services`
child. -/
def servicesOf (d : Elem) : List Elem :=
  ((findChild "Services" d.children).map Elem.children).getD []

/-- Extension normalization performed on `target` (lines 281-283):
`base, ext = os.path.splitext(target); if ext != '.idpmsg':
target = target.replace(ext, '.idpmsg')`.  Note `str.replace` replaces
EVERY occurrence of `ext`, and an empty `ext` makes it insert `.idpmsg`
between every character of `target`. -/
def normalize_target (target : String) : String :=
  let ext := (splitext target).2
  if ext ≠ ".idpmsg" then pyReplace target ext ".idpmsg" else target

/-- Newline-joined diagnostics, as built by the loop that accumulates
`error_string` (which is empty before the loop whenever diagnostics
exist). -/
def joinNL (l : List String) : String :=
  String.intercalate "\n" l

/-- Observable outcome of one `merge_mdf` call: the returned value
(`None` or an error string), the output file write (path and document),
the `_ERR.log` write (path and contents), and the final `exceptions`
list. -/
structure MergeResult where
  retval : Option String
  written : Option (String × Elem)
  errlog : Option (String × String)
  excList : List String

/-- Source function `merge_mdf(files, target, meta)`.  Faithful control
flow: the two configuration checks, extension normalization, the
containing-directory check (`valid_path` on `target` with its basename
replaced by the empty string) with an early error return, the source loop
(`processFiles`), the sort-and-write branch when at least one Service was
collected (including the `trunk[len(services)-1].tail` fixup and the
`xmlns:xsd` attribute), the no-Services diagnostic otherwise, and the
error-log write plus final return value. -/
def merge_mdf (env : Env) (files : Option (List String)) (target : Option String)
    (meta : Bool) : Except PyExc MergeResult :=
  if files.isNone || (files.getD []).length < 2 then
    pure { retval := some "No files to merge.", written := none, errlog := none, excList := [] }
  else if target.isNone then
    pure { retval := some "No target file to output.", written := none, errlog := none,
           excList := [] }
  else do
    let target0 := target.getD ""
    let base_filename := (splitext target0).1
    let target1 := normalize_target target0
    let dirOk ← valid_path env (pyReplace target1 (basenameP target1) "")
    if !dirOk then
      pure { retval := some ("ERROR: Invalid target file/path " ++ target1), written := none,
             errlog := none, excList := [] }
    else do
      let err_filename := base_filename ++ "_ERR.log"
      let st ← processFiles env meta ⟨[], [], []⟩ (files.getD [])
      if 0 < st.services.length then do
        let data := st.trunk.map (fun e => (svcKey e, e))
        let sorted := (sortPairs data).map (fun q => q.2)
        let newTrunk ← setTailAt (st.services.length - 1) (some "\n  ") sorted
        let excs := st.exceptions
        pure { retval := if excs.isEmpty then none else some (joinNL excs),
               written := some (target1, mkDoc newTrunk),
               errlog := if excs.isEmpty then none else some (err_filename, joinNL excs),
               excList := excs }
      else
        let excs := st.exceptions ++ ["ERROR: No Services found in source file set."]
        pure { retval := some (joinNL excs), written := none,
               errlog := some (err_filename, joinNL excs), excList := excs }


/-- Convenience constructor used in the concrete runs below: a `Service`
element with a single `SIN` child carrying the given text. -/
def svcElem (s : String) : Elem :=
  Elem.mk "Service" [] none none [Elem.mk "SIN" [] (some s) none []]

/-- Convenience constructor: a source document root whose single child is
a `Services` container with the given Service elements. -/
def srcDoc (l : List Elem) : Elem :=
  Elem.mk "MessageDefinition" [] none none [Elem.mk "Services" [] none none l]

/-- Hypothesis that the parse oracle only returns trees a real
`ET.parse` can produce with respect to empty text: an element parsed from
a file never has `text = some ""` (an empty XML element yields `None`). -/
def GoodParse (env : Env) : Prop :=
  ∀ f e, env.parse f = Except.ok e → noEmptyE e = true

/-- Invariant of the collection loop: the seen-SIN list has no
duplicates, none of its entries is the (unparseable) empty string, and the
trunk's sort keys are exactly the seen SINs with `None` rendered as the
empty text by `findtext`. -/
def InvSt (st : CState) : Prop :=
  st.services.Nodup ∧ (∀ o ∈ st.services, o ≠ some "") ∧
    st.trunk.map svcKey = st.services.map (fun o => some (o.getD ""))

/-- Environment for the concrete C1 run: every path exists, no network,
both sources parse to a document with one Service of SIN 16. -/
def envC1 : Env :=
  Env.mk (fun _ => true) (fun _ => Except.error PyExc.connError)
    (fun f => if f = "a.idpmsg" then Except.ok (srcDoc [svcElem "16"])
              else Except.ok (srcDoc [svcElem "16"]))

/-- Environment for the concrete C10 run: the first source repeats SIN 16
inside its own Services container, the second source is empty. -/
def envC10 : Env :=
  Env.mk (fun _ => true) (fun _ => Except.error PyExc.connError)
    (fun f => if f = "a.idpmsg" then Except.ok (srcDoc [svcElem "16", svcElem "16"])
              else Except.ok (srcDoc []))

/-- Environment for the concrete C8 run: both sources parse but have no
`Services` container at all. -/
def envC8 : Env :=
  Env.mk (fun _ => true) (fun _ => Except.error PyExc.connError)
    (fun _ => Except.ok (Elem.mk "MessageDefinition" [] none none []))

/-- Environment whose sources parse to one-Service documents; used by the
runs below that must reach the source loop with a URL-shaped path. -/
def envURL : Env :=
  Env.mk (fun _ => true) (fun _ => Except.error PyExc.connError)
    (fun _ => Except.ok (srcDoc [svcElem "16"]))

/-- Environment with no reachable paths and failing oracles; the
configuration checks never consult it. -/
def envTriv : Env :=
  Env.mk (fun _ => false) (fun _ => Except.error PyExc.connError)
    (fun _ => Except.error PyExc.parseError)

/-- Environment for the C5 failing input: the sources parse to a document
whose single Service element has a `Name` child but no `SIN` child. -/
def envC5 : Env :=
  Env.mk (fun _ => true) (fun _ => Except.error PyExc.connError)
    (fun _ => Except.ok (srcDoc [Elem.mk "Service" [] none none
      [Elem.mk "Name" [] (some "x") none []]]))

/-- Environment for the C6 counterexample: the first source introduces
SIN 1; the second source repeats SIN 1 in an element that also carries an
empty `Description` child. -/
def envC6 : Env :=
  Env.mk (fun _ => true) (fun _ => Except.error PyExc.connError)
    (fun f => if f = "a.idpmsg" then Except.ok (srcDoc [svcElem "1"])
      else Except.ok (srcDoc [Elem.mk "Service" [] none none
        [Elem.mk "SIN" [] (some "1") none [], Elem.mk "Description" [] none none []]]))

/-- Environment for the C2 witness: three distinct SINs across two
sources, listed out of order. -/
def envC2 : Env :=
  Env.mk (fun _ => true) (fun _ => Except.error PyExc.connError)
    (fun f => if f = "a.idpmsg" then Except.ok (srcDoc [svcElem "20", svcElem "16"])
              else Except.ok (srcDoc [svcElem "24"]))


/-- Setting an attribute leaves the children unchanged. -/
theorem children_setA (k : String) (v : Option String) (e : Elem) :
    (e.setA k v).children = e.children := by
  cases e; rfl

/-- Setting an attribute leaves the tag unchanged. -/
theorem tag_setA (k : String) (v : Option String) (e : Elem) :
    (e.setA k v).tag = e.tag := by
  cases e; rfl

/-- Setting the tail leaves the children unchanged. -/
theorem children_setTail (v : Option String) (e : Elem) :
    (e.setTail v).children = e.children := by
  cases e; rfl

/-- Setting the tail does not change the element's sort key. -/
theorem svcKey_setTail (v : Option String) (e : Elem) :
    svcKey (e.setTail v) = svcKey e := by
  cases e; rfl

/-- The tail fixup does not change the element's sort key. -/
theorem svcKey_tailFix (e : Elem) : svcKey (tailFix e) = svcKey e := by
  unfold tailFix
  split
  · exact svcKey_setTail _ e
  · rfl

/-- Setting the tail after the tail fixup is the same as setting it on the
original element. -/
theorem setTail_tailFix (v : Option String) (e : Elem) :
    (tailFix e).setTail v = e.setTail v := by
  unfold tailFix
  split
  · cases e; rfl
  · rfl

/-- Surface shape of a successful `annMsgE`: tag and text are never
changed (only attributes are), and the children are the `annMsgL` image of
the original children. -/
theorem annMsgE_ok (meta : Bool) (e e' : Elem) (h : annMsgE meta e = Except.ok e') :
    e'.tag = e.tag ∧ e'.text = e.text ∧ annMsgL meta e.children = Except.ok e'.children := by
  cases e with
  | mk t a tx tl ch =>
    unfold annMsgE at h
    by_cases hm : (meta && t == "Message") = true
    · rw [if_pos hm] at h
      cases hMin : findChild "MIN" ch with
      | none =>
        rw [hMin] at h
        simp only [orAttr, bind, Except.bind, pure, Except.pure, Functor.map, Except.map,
          throw, throwThe, MonadExceptOf.throw] at h
        exact Except.noConfusion h
      | some minE =>
        rw [hMin] at h
        cases hName : findChild "Name" ch with
        | none =>
          rw [hName] at h
          simp only [orAttr, bind, Except.bind, pure, Except.pure, Functor.map, Except.map,
            throw, throwThe, MonadExceptOf.throw] at h
          exact Except.noConfusion h
        | some nameE =>
          rw [hName] at h
          cases hL : annMsgL meta ch with
          | error ex =>
            rw [hL] at h
            simp only [orAttr, bind, Except.bind, pure, Except.pure, Functor.map, Except.map,
              throw, throwThe, MonadExceptOf.throw] at h
            exact Except.noConfusion h
          | ok ch' =>
            rw [hL] at h
            simp only [orAttr, bind, Except.bind, pure, Except.pure, Functor.map, Except.map,
              throw, throwThe, MonadExceptOf.throw] at h
            cases h
            exact ⟨rfl, rfl, hL⟩
    · rw [if_neg hm] at h
      cases hL : annMsgL meta ch with
      | error ex =>
        rw [hL] at h
        simp only [bind, Except.bind, pure, Except.pure, Functor.map, Except.map] at h
        exact Except.noConfusion h
      | ok ch' =>
        rw [hL] at h
        simp only [bind, Except.bind, pure, Except.pure, Functor.map, Except.map] at h
        cases h
        exact ⟨rfl, rfl, hL⟩

/-- Surface shape of a successful `cleanE`: the tag is unchanged, the text
is unchanged unless the node is a `Description`, and the children are the
`cleanL` image of the original children. -/
theorem cleanE_ok (e e' : Elem) (h : cleanE e = Except.ok e') :
    e'.tag = e.tag ∧ (e.tag ≠ "Description" → e'.text = e.text) ∧
      cleanL e.children = Except.ok e'.children := by
  cases e with
  | mk t a tx tl ch =>
    unfold cleanE at h
    by_cases hd : (t == "Description") = true
    · rw [if_pos hd] at h
      cases tx with
      | none =>
        simp only [bind, Except.bind, pure, Except.pure, Functor.map, Except.map,
          throw, throwThe, MonadExceptOf.throw] at h
        exact Except.noConfusion h
      | some s =>
        cases hL : cleanL ch with
        | error ex =>
          rw [hL] at h
          simp only [bind, Except.bind, pure, Except.pure, Functor.map, Except.map] at h
          exact Except.noConfusion h
        | ok ch' =>
          rw [hL] at h
          simp only [bind, Except.bind, pure, Except.pure, Functor.map, Except.map] at h
          cases h
          refine ⟨rfl, ?_, hL⟩
          intro hne
          exact absurd (by simpa using hd) hne
    · rw [if_neg hd] at h
      cases hL : cleanL ch with
      | error ex =>
        rw [hL] at h
        simp only [bind, Except.bind, pure, Except.pure, Functor.map, Except.map] at h
        exact Except.noConfusion h
      | ok ch' =>
        rw [hL] at h
        simp only [bind, Except.bind, pure, Except.pure, Functor.map, Except.map] at h
        cases h
        exact ⟨rfl, fun _ => rfl, hL⟩

/-- A successful `annMsgL` run changes neither which child `find` locates
nor that child's text. -/
theorem annMsgL_findChild (meta : Bool) (t : String) :
    ∀ (l l' : List Elem), annMsgL meta l = Except.ok l' →
      (findChild t l').map Elem.text = (findChild t l).map Elem.text := by
  intro l
  induction l with
  | nil =>
    intro l' h
    unfold annMsgL at h
    simp only [pure, Except.pure] at h
    cases h
    rfl
  | cons e es ih =>
    intro l' h
    unfold annMsgL at h
    cases hE : annMsgE meta e with
    | error ex =>
      rw [hE] at h
      simp only [bind, Except.bind, pure, Except.pure, Functor.map, Except.map] at h
      exact Except.noConfusion h
    | ok e' =>
      rw [hE] at h
      cases hL : annMsgL meta es with
      | error ex =>
        rw [hL] at h
        simp only [bind, Except.bind, pure, Except.pure, Functor.map, Except.map] at h
        exact Except.noConfusion h
      | ok es' =>
        rw [hL] at h
        simp only [bind, Except.bind, pure, Except.pure, Functor.map, Except.map] at h
        cases h
        obtain ⟨htag, htext, _⟩ := annMsgE_ok meta e e' hE
        unfold findChild
        rw [htag]
        by_cases he : e.tag = t
        · rw [if_pos he, if_pos he]
          simp only [Option.map_some', htext]
        · rw [if_neg he, if_neg he]
          exact ih es' hL

/-- A successful `cleanL` run changes neither which child `find` locates
nor, for a tag other than `Description`, that child's text. -/
theorem cleanL_findChild (t : String) (ht : t ≠ "Description") :
    ∀ (l l' : List Elem), cleanL l = Except.ok l' →
      (findChild t l').map Elem.text = (findChild t l).map Elem.text := by
  intro l
  induction l with
  | nil =>
    intro l' h
    unfold cleanL at h
    simp only [pure, Except.pure] at h
    cases h
    rfl
  | cons e es ih =>
    intro l' h
    unfold cleanL at h
    cases hE : cleanE e with
    | error ex =>
      rw [hE] at h
      simp only [bind, Except.bind, pure, Except.pure, Functor.map, Except.map] at h
      exact Except.noConfusion h
    | ok e' =>
      rw [hE] at h
      cases hL : cleanL es with
      | error ex =>
        rw [hL] at h
        simp only [bind, Except.bind, pure, Except.pure, Functor.map, Except.map] at h
        exact Except.noConfusion h
      | ok es' =>
        rw [hL] at h
        simp only [bind, Except.bind, pure, Except.pure, Functor.map, Except.map] at h
        cases h
        obtain ⟨htag, htext, _⟩ := cleanE_ok e e' hE
        unfold findChild
        rw [htag]
        by_cases he : e.tag = t
        · rw [if_pos he, if_pos he]
          simp only [Option.map_some', htext (fun hh => ht (he ▸ hh))]
        · rw [if_neg he, if_neg he]
          exact ih es' hL

/-- Helper: a known `find('SIN').text` value determines the sort key. -/
theorem svcKey_of_findtext (e : Elem) (v : Option String)
    (h : (findChild "SIN" e.children).map Elem.text = some v) :
    svcKey e = some (v.getD "") := by
  unfold svcKey findText
  cases hf : findChild "SIN" e.children with
  | none => rw [hf] at h; exact Option.noConfusion h
  | some se =>
    rw [hf] at h
    simp only [Option.map_some'] at h ⊢
    rw [Option.some.inj h]

/-- The SIN reported by `processLimb` is the text of the `SIN` child of
the input element, and the processed element carries the same SIN text as
its sort key (processing touches only attributes, tails and `Description`
texts). -/
theorem processLimbCore_sin (meta : Bool) (service : Option String) (limb1 : Elem)
    (svc : Option String) (limb' : Elem)
    (h : processLimbCore meta service limb1 = Except.ok (svc, limb')) :
    svc = service ∧ (findChild "SIN" limb'.children).map Elem.text =
      (findChild "SIN" limb1.children).map Elem.text := by
  unfold processLimbCore at h
  cases hA : annMsgE meta limb1 with
  | error ex =>
    rw [hA] at h
    simp only [bind, Except.bind] at h
    exact Except.noConfusion h
  | ok limb2 =>
    rw [hA] at h
    simp only [bind, Except.bind] at h
    cases hC : cleanE limb2 with
    | error ex =>
      rw [hC] at h
      simp only [pure, Except.pure] at h
      exact Except.noConfusion h
    | ok limb3 =>
      rw [hC] at h
      simp only [pure, Except.pure] at h
      cases h
      refine ⟨rfl, ?_⟩
      rw [cleanL_findChild "SIN" (by decide) _ _ (cleanE_ok _ _ hC).2.2,
        annMsgL_findChild meta "SIN" _ _ (annMsgE_ok _ _ _ hA).2.2]

theorem processLimb_sin (meta : Bool) (limb : Elem) (svc : Option String) (limb' : Elem)
    (h : processLimb meta limb = Except.ok (svc, limb')) :
    (∃ e, findChild "SIN" limb.children = some e ∧ svc = e.text) ∧
      svcKey limb' = some (svc.getD "") := by
  unfold processLimb at h
  cases hS : findChild "SIN" limb.children with
  | none =>
    rw [hS] at h
    simp only [orAttr, bind, Except.bind, pure, Except.pure, throw, throwThe,
      MonadExceptOf.throw] at h
    exact Except.noConfusion h
  | some sinE =>
    rw [hS] at h
    simp only [orAttr, bind, Except.bind, pure, Except.pure] at h
    by_cases hmeta : meta = true
    · subst hmeta
      rw [if_pos rfl] at h
      cases hN : findChild "Name" limb.children with
      | none =>
        rw [hN] at h
        simp only [orAttr, bind, Except.bind, pure, Except.pure, throw, throwThe,
          MonadExceptOf.throw] at h
        exact Except.noConfusion h
      | some nameE =>
        rw [hN] at h
        simp only [orAttr, bind, Except.bind, pure, Except.pure] at h
        obtain ⟨hsvc, hfind⟩ := processLimbCore_sin _ _ _ _ _ h
        refine ⟨⟨sinE, rfl, hsvc⟩, ?_⟩
        apply svcKey_of_findtext
        rw [hfind, children_setA, children_setA, hS, hsvc]
        rfl
    · have hmeta' : meta = false := Bool.eq_false_iff.mpr hmeta
      subst hmeta'
      rw [if_neg (by simp)] at h
      obtain ⟨hsvc, hfind⟩ := processLimbCore_sin _ _ _ _ _ h
      refine ⟨⟨sinE, rfl, hsvc⟩, ?_⟩
      apply svcKey_of_findtext
      rw [hfind, hS, hsvc]
      rfl

/-- Decomposition of `noEmptyE`. -/
theorem noEmptyE_parts (e : Elem) (h : noEmptyE e = true) :
    e.text ≠ some "" ∧ noEmptyL e.children = true := by
  cases e with
  | mk t a tx tl ch =>
    unfold noEmptyE at h
    simp only [Bool.and_eq_true, decide_eq_true_eq] at h
    exact ⟨h.1, h.2⟩

/-- Membership version of `noEmptyL`. -/
theorem noEmptyL_mem (l : List Elem) (h : noEmptyL l = true) (e : Elem) (he : e ∈ l) :
    noEmptyE e = true := by
  induction l with
  | nil => cases he
  | cons a as ih =>
    unfold noEmptyL at h
    simp only [Bool.and_eq_true] at h
    cases he with
    | head => exact h.1
    | tail _ hm => exact ih h.2 hm

/-- The element `find` returns is a member of the list. -/
theorem findChild_mem (t : String) (l : List Elem) (e : Elem) (h : findChild t l = some e) :
    e ∈ l := by
  induction l with
  | nil => exact Option.noConfusion h
  | cons a as ih =>
    unfold findChild at h
    by_cases ha : a.tag = t
    · rw [if_pos ha] at h
      cases h
      exact List.mem_cons_self _ _
    · rw [if_neg ha] at h
      exact List.mem_cons_of_mem _ (ih h)



/-- Lemma: `collectLimb` preserves the invariant. -/
theorem collectLimb_inv (meta : Bool) (f : String) (st : CState) (limb : Elem) (st' : CState)
    (hInv : InvSt st) (hne : noEmptyE limb = true)
    (h : collectLimb meta f st limb = Except.ok st') : InvSt st' := by
  unfold collectLimb at h
  cases hP : processLimb meta limb with
  | error ex =>
    rw [hP] at h
    simp only [bind, Except.bind] at h
    exact Except.noConfusion h
  | ok r =>
    rw [hP] at h
    obtain ⟨svc, limb'⟩ := r
    simp only [bind, Except.bind, pure, Except.pure] at h
    obtain ⟨⟨sinE, hfind, hsvc⟩, hkey⟩ := processLimb_sin meta limb svc limb' hP
    have hsvcne : svc ≠ some "" := by
      have h1 : noEmptyE sinE = true :=
        noEmptyL_mem _ (noEmptyE_parts limb hne).2 _ (findChild_mem _ _ _ hfind)
      rw [hsvc]
      exact (noEmptyE_parts sinE h1).1
    by_cases hmem : svc ∈ st.services
    · rw [if_pos hmem] at h
      cases h
      exact hInv
    · rw [if_neg hmem] at h
      cases h
      refine ⟨?_, ?_, ?_⟩
      · exact hInv.1.append (List.nodup_singleton svc)
          (by simpa [List.disjoint_singleton] using hmem)
      · intro o ho
        rcases List.mem_append.mp ho with hl | hr
        · exact hInv.2.1 o hl
        · rw [List.mem_singleton.mp hr]
          exact hsvcne
      · simp only [List.map_append, List.map_cons, List.map_nil]
        rw [svcKey_tailFix, hkey, hInv.2.2]

/-- The per-file fold over extracted elements preserves the invariant. -/
theorem foldl_collect_inv (meta : Bool) (f : String) :
    ∀ (limbs : List Elem) (st st' : CState), InvSt st → noEmptyL limbs = true →
      List.foldlM (collectLimb meta f) st limbs = Except.ok st' → InvSt st' := by
  intro limbs
  induction limbs with
  | nil =>
    intro st st' hI _ h
    simp only [List.foldlM_nil, pure, Except.pure] at h
    cases h
    exact hI
  | cons x xs ih =>
    intro st st' hI hne h
    have hne' : noEmptyE x = true ∧ noEmptyL xs = true := by
      unfold noEmptyL at hne
      simpa [Bool.and_eq_true] using hne
    rw [List.foldlM_cons] at h
    cases hc : collectLimb meta f st x with
    | error ex =>
      rw [hc] at h
      simp only [bind, Except.bind] at h
      exact Except.noConfusion h
    | ok st1 =>
      rw [hc] at h
      simp only [bind, Except.bind] at h
      exact ih st1 st' (collectLimb_inv meta f st x st1 hI hne'.1 hc) hne'.2 h

/-- Lemma: `processFile` preserves the invariant when the parse oracle is honest
about empty texts. -/
theorem processFile_inv (env : Env) (meta : Bool) (st : CState) (f : String)
    (st' : CState) (b : Bool) (hgood : GoodParse env) (hI : InvSt st)
    (h : processFile env meta st f = Except.ok (st', b)) : InvSt st' := by
  unfold processFile at h
  cases hv : valid_path env f with
  | error ex =>
    rw [hv] at h
    simp only [bind, Except.bind] at h
    exact Except.noConfusion h
  | ok okb =>
    rw [hv] at h
    simp only [bind, Except.bind] at h
    cases okb with
    | false =>
      simp only [Bool.not_false, if_pos, pure, Except.pure] at h
      cases h
      exact hI
    | true =>
      simp only [Bool.not_true, Bool.false_eq_true, if_false] at h
      cases hp : env.parse f with
      | error ex =>
        rw [hp] at h
        simp only [bind, Except.bind] at h
        exact Except.noConfusion h
      | ok branch =>
        rw [hp] at h
        simp only [bind, Except.bind] at h
        by_cases hS : (findAllTag "Services" branch.children).isEmpty = true
        · rw [if_pos hS] at h
          simp only [pure, Except.pure] at h
          cases h
          exact hI
        · rw [if_neg hS] at h
          cases hch : branch.children with
          | nil =>
            rw [hch] at h
            simp only [throw, throwThe, MonadExceptOf.throw] at h
            exact Except.noConfusion h
          | cons c rest =>
            rw [hch] at h
            dsimp only [] at h
            cases hfold : List.foldlM (collectLimb meta f) st c.children with
            | error ex =>
              rw [hfold] at h
              simp only [bind, Except.bind] at h
              exact Except.noConfusion h
            | ok st1 =>
              rw [hfold] at h
              simp only [bind, Except.bind, pure, Except.pure] at h
              cases h
              have hb : noEmptyE branch = true := hgood f branch hp
              have hc : noEmptyE c = true := by
                apply noEmptyL_mem _ (noEmptyE_parts branch hb).2
                rw [hch]
                exact List.mem_cons_self _ _
              exact foldl_collect_inv meta f c.children st _ hI
                (noEmptyE_parts c hc).2 hfold

/-- The whole source loop preserves the invariant. -/
theorem processFiles_inv (env : Env) (meta : Bool) :
    ∀ (fs : List String) (st st' : CState), GoodParse env → InvSt st →
      processFiles env meta st fs = Except.ok st' → InvSt st' := by
  intro fs
  induction fs with
  | nil =>
    intro st st' _ hI h
    unfold processFiles at h
    simp only [pure, Except.pure] at h
    cases h
    exact hI
  | cons f fs ih =>
    intro st st' hg hI h
    unfold processFiles at h
    cases hp : processFile env meta st f with
    | error ex =>
      rw [hp] at h
      simp only [bind, Except.bind] at h
      exact Except.noConfusion h
    | ok r =>
      rw [hp] at h
      obtain ⟨st1, b⟩ := r
      simp only [bind, Except.bind] at h
      have hI1 := processFile_inv env meta st f st1 b hg hI hp
      cases b with
      | true =>
        simp only [if_pos, pure, Except.pure] at h
        cases h
        exact hI1
      | false =>
        simp only [Bool.false_eq_true, if_false] at h
        exact ih st1 st' hg hI1 h

/-- Lexicographic strict order on character lists is asymmetric. -/
theorem charListLt_asymm : ∀ (a b : List Char), charListLt a b = true → charListLt b a = false := by
  intro a
  induction a with
  | nil =>
    intro b h
    cases b with
    | nil => simp [charListLt] at h
    | cons y ys => simp [charListLt]
  | cons x xs ih =>
    intro b h
    cases b with
    | nil => simp [charListLt] at h
    | cons y ys =>
      unfold charListLt at h ⊢
      by_cases hxy : x < y
      · rw [if_neg (lt_asymm hxy), if_pos hxy]
      · rw [if_neg hxy] at h
        by_cases hyx : y < x
        · rw [if_pos hyx] at h
          exact absurd h (by simp)
        · rw [if_neg hyx] at h
          rw [if_neg hyx, if_neg hxy]
          exact ih ys h

/-- Two character lists neither of which is below the other are equal. -/
theorem charListLt_connex : ∀ (a b : List Char), charListLt a b = false →
    charListLt b a = false → a = b := by
  intro a
  induction a with
  | nil =>
    intro b h1 _
    cases b with
    | nil => rfl
    | cons y ys => simp [charListLt] at h1
  | cons x xs ih =>
    intro b h1 h2
    cases b with
    | nil => simp [charListLt] at h2
    | cons y ys =>
      unfold charListLt at h1 h2
      by_cases hxy : x < y
      · rw [if_pos hxy] at h1
        exact absurd h1 (by simp)
      · by_cases hyx : y < x
        · rw [if_pos hyx] at h2
          exact absurd h2 (by simp)
        · rw [if_neg hxy, if_neg hyx] at h1
          rw [if_neg hyx, if_neg hxy] at h2
          have hxy' : x = y := le_antisymm (le_of_not_lt hyx) (le_of_not_lt hxy)
          rw [hxy', ih ys h1 h2]

/-- Lexicographic strict order on character lists is transitive. -/
theorem charListLt_trans : ∀ (a b c : List Char), charListLt a b = true →
    charListLt b c = true → charListLt a c = true := by
  intro a
  induction a with
  | nil =>
    intro b c _ h2
    cases c with
    | nil =>
      cases b with
      | nil => simp [charListLt] at h2
      | cons y ys => simp [charListLt] at h2
    | cons z zs => simp [charListLt]
  | cons x xs ih =>
    intro b c h1 h2
    cases b with
    | nil => simp [charListLt] at h1
    | cons y ys =>
      cases c with
      | nil => simp [charListLt] at h2
      | cons z zs =>
        unfold charListLt at h1 h2 ⊢
        by_cases hxy : x < y
        · by_cases hyz : y < z
          · rw [if_pos (lt_trans hxy hyz)]
          · by_cases hzy : z < y
            · rw [if_neg hyz, if_pos hzy] at h2
              exact absurd h2 (by simp)
            · have hyz' : y = z := le_antisymm (le_of_not_lt hzy) (le_of_not_lt hyz)
              rw [← hyz', if_pos hxy]
        · rw [if_neg hxy] at h1
          by_cases hyx : y < x
          · rw [if_pos hyx] at h1
            exact absurd h1 (by simp)
          · rw [if_neg hyx] at h1
            have hxy' : x = y := le_antisymm (le_of_not_lt hyx) (le_of_not_lt hxy)
            subst hxy'
            by_cases hxz : x < z
            · rw [if_pos hxz]
            · rw [if_neg hxz] at h2 ⊢
              by_cases hzx : z < x
              · rw [if_pos hzx] at h2
                exact absurd h2 (by simp)
              · rw [if_neg hzx] at h2 ⊢
                exact ih ys zs h1 h2

/-- The Python 2 key comparison is total. -/
theorem keyLe_total (a b : Option String) : keyLe a b = true ∨ keyLe b a = true := by
  cases a with
  | none => left; rfl
  | some s =>
    cases b with
    | none => right; rfl
    | some t =>
      unfold keyLe strLt
      by_cases h : charListLt t.data s.data = true
      · right
        simp [charListLt_asymm _ _ h]
      · left
        simp [Bool.not_eq_true _ ▸ h]

/-- The Python 2 key comparison is transitive. -/
theorem keyLe_trans (a b c : Option String) (h1 : keyLe a b = true) (h2 : keyLe b c = true) :
    keyLe a c = true := by
  cases a with
  | none => rfl
  | some s =>
    cases b with
    | none => simp [keyLe] at h1
    | some t =>
      cases c with
      | none => simp [keyLe] at h2
      | some u =>
        unfold keyLe strLt at h1 h2 ⊢
        simp only [Bool.not_eq_true'] at h1 h2 ⊢
        by_cases hca : charListLt u.data s.data = true
        · by_cases hbc : charListLt t.data u.data = true
          · exact absurd (charListLt_trans _ _ _ hbc hca) (by simp [h1])
          · have : t.data = u.data :=
              charListLt_connex _ _ (Bool.not_eq_true _ ▸ hbc) h2
            rw [← this] at hca
            exact absurd hca (by simp [h1])
        · exact Bool.not_eq_true _ ▸ hca

/-- A weak inequality between distinct keys is strict. -/
theorem keyLe_ne_lt (a b : Option String) (h : keyLe a b = true) (hne : a ≠ b) :
    keyLt a b = true := by
  cases a with
  | none =>
    cases b with
    | none => exact absurd rfl hne
    | some t => rfl
  | some s =>
    cases b with
    | none => simp [keyLe] at h
    | some t =>
      unfold keyLe strLt at h
      unfold keyLt strLt
      simp only [Bool.not_eq_true'] at h
      by_cases hst : charListLt s.data t.data = true
      · exact hst
      · have : s.data = t.data := charListLt_connex _ _ (Bool.not_eq_true _ ▸ hst) h
        have hst2 : s = t := by
          cases s
          cases t
          exact congrArg String.mk this
        exact absurd (by rw [hst2]) hne

/-- The tail assignment `trunk[i].tail = v` changes no sort key. -/
theorem setTailAt_map_svcKey :
    ∀ (i : Nat) (v : Option String) (l l' : List Elem),
      setTailAt i v l = Except.ok l' → l'.map svcKey = l.map svcKey := by
  intro i v l
  induction l generalizing i with
  | nil =>
    intro l' h
    unfold setTailAt at h
    simp only [throw, throwThe, MonadExceptOf.throw] at h
    exact Except.noConfusion h
  | cons e es ih =>
    intro l' h
    unfold setTailAt at h
    cases i with
    | zero =>
      simp only [pure, Except.pure] at h
      cases h
      simp only [List.map_cons, svcKey_setTail]
    | succ n =>
      dsimp only [] at h
      cases hs : setTailAt n v es with
      | error ex =>
        rw [hs] at h
        simp only [bind, Except.bind] at h
        exact Except.noConfusion h
      | ok es' =>
        rw [hs] at h
        simp only [bind, Except.bind, pure, Except.pure] at h
        cases h
        simp only [List.map_cons]
        rw [ih n es' hs]

/-- A list all of whose entries are `some` is the `some`-image of a list
of plain values. -/
theorem all_some_eq_map_some :
    ∀ (L : List (Option String)), (∀ k ∈ L, ∃ s, k = some s) →
      ∃ ks : List String, L = ks.map some := by
  intro L
  induction L with
  | nil => intro _; exact ⟨[], rfl⟩
  | cons k ks ih =>
    intro h
    obtain ⟨s, hs⟩ := h k (List.mem_cons_self _ _)
    obtain ⟨tl, htl⟩ := ih (fun x hx => h x (List.mem_cons_of_mem _ hx))
    exact ⟨s :: tl, by rw [hs, htl]; rfl⟩

/-- Core of the sortedness argument: after the run invariant holds, the
sorted trunk (with the final tail fixup applied) has pairwise strictly
increasing `some`-keys under the lexicographic string order. -/
theorem sorted_keys_of_inv (st : CState) (hInv : InvSt st) (i : Nat) (v : Option String)
    (newTrunk : List Elem)
    (hset : setTailAt i v
      ((sortPairs (st.trunk.map (fun e => (svcKey e, e)))).map (fun q => q.2)) =
        Except.ok newTrunk) :
    ∃ ks : List String, newTrunk.map svcKey = ks.map some ∧
      ks.Pairwise (fun a b => strLt a b = true) := by
  classical
  haveI : IsTotal (Option String × Elem) pairLe := ⟨fun p q => keyLe_total p.1 q.1⟩
  haveI : IsTrans (Option String × Elem) pairLe :=
    ⟨fun p q u h1 h2 => keyLe_trans p.1 q.1 u.1 h1 h2⟩
  set data := st.trunk.map (fun e => (svcKey e, e)) with hdata
  have hperm : List.Perm (sortPairs data) data := List.perm_insertionSort pairLe data
  have hmemdata : ∀ q ∈ data, q.1 = svcKey q.2 := by
    intro q hq
    rcases List.mem_map.mp hq with ⟨e, _, rfl⟩
    rfl
  have hmemsorted : ∀ q ∈ sortPairs data, q.1 = svcKey q.2 :=
    fun q hq => hmemdata q (hperm.mem_iff.mp hq)
  have hdatafst : data.map Prod.fst = st.services.map (fun o => some (o.getD "")) := by
    rw [hdata, List.map_map]
    exact hInv.2.2
  have hmap2 : newTrunk.map svcKey = (sortPairs data).map Prod.fst := by
    rw [setTailAt_map_svcKey i v _ newTrunk hset, List.map_map]
    exact List.map_congr_left (fun q hq => (hmemsorted q hq).symm)
  have hpermkeys : List.Perm ((sortPairs data).map Prod.fst) (data.map Prod.fst) := hperm.map _
  have hPWle : ((sortPairs data).map Prod.fst).Pairwise (fun a b => keyLe a b = true) :=
    List.pairwise_map.mpr (List.sorted_insertionSort pairLe data)
  have hnodup : ((sortPairs data).map Prod.fst).Nodup := by
    rw [hpermkeys.nodup_iff, hdatafst]
    refine List.Nodup.map_on ?_ hInv.1
    intro o1 h1 o2 h2 heq
    have heq' : o1.getD "" = o2.getD "" := Option.some.inj heq
    cases o1 with
    | none =>
      cases o2 with
      | none => rfl
      | some t =>
        exact absurd (by simpa using heq'.symm) (fun hh => hInv.2.1 (some t) h2 (by rw [hh]))
    | some s =>
      cases o2 with
      | none =>
        exact absurd (by simpa using heq') (fun hh => hInv.2.1 (some s) h1 (by rw [hh]))
      | some t => rw [show s = t from by simpa using heq']
  have hPWlt : ((sortPairs data).map Prod.fst).Pairwise (fun a b => keyLt a b = true) :=
    (hPWle.and hnodup).imp (fun hab => keyLe_ne_lt _ _ hab.1 hab.2)
  have hallsome : ∀ k ∈ (sortPairs data).map Prod.fst, ∃ s, k = some s := by
    intro k hk
    have : k ∈ data.map Prod.fst := hpermkeys.mem_iff.mp hk
    rw [hdatafst] at this
    rcases List.mem_map.mp this with ⟨o, _, rfl⟩
    exact ⟨o.getD "", rfl⟩
  obtain ⟨ks, hks⟩ := all_some_eq_map_some _ hallsome
  refine ⟨ks, by rw [hmap2, hks], ?_⟩
  rw [hks] at hPWlt
  exact (List.pairwise_map.mp hPWlt).imp (fun hab => hab)

/-- C2: for every merge run that collects at least one Service element
(equivalently, that writes an output document), the Service elements of
the written document are strictly ordered by ascending SIN, compared
lexicographically on the textual form of the key (`str` comparison in
Python 2; `strLt` here is precisely that lexicographic order).  The
`GoodParse` hypothesis states the one fact about the real parser the
argument needs: `ET.parse` never produces an element whose text is the
empty string. -/
theorem C2_output_sorted_by_sin (env : Env) (files : Option (List String))
    (target : Option String) (meta : Bool) (r : MergeResult) (p : String) (d : Elem)
    (hgood : GoodParse env) (h : merge_mdf env files target meta = Except.ok r)
    (hw : r.written = some (p, d)) :
    ∃ ks : List String, (servicesOf d).map svcKey = ks.map some ∧
      ks.Pairwise (fun a b => strLt a b = true) := by
  unfold merge_mdf at h
  split at h
  · simp only [pure, Except.pure] at h
    cases h
    exact Option.noConfusion hw
  · split at h
    · simp only [pure, Except.pure] at h
      cases h
      exact Option.noConfusion hw
    · dsimp only [] at h
      cases hv : valid_path env (pyReplace (normalize_target (target.getD ""))
          (basenameP (normalize_target (target.getD ""))) "") with
      | error ex =>
        rw [hv] at h
        simp only [bind, Except.bind] at h
        exact Except.noConfusion h
      | ok dirOk =>
        rw [hv] at h
        simp only [bind, Except.bind] at h
        cases dirOk with
        | false =>
          simp only [Bool.not_false, if_pos, pure, Except.pure] at h
          cases h
          exact Option.noConfusion hw
        | true =>
          simp only [Bool.not_true, Bool.false_eq_true, if_false] at h
          cases hst : processFiles env meta ⟨[], [], []⟩ (files.getD []) with
          | error ex =>
            rw [hst] at h
            simp only [bind, Except.bind] at h
            exact Except.noConfusion h
          | ok st =>
            rw [hst] at h
            simp only [bind, Except.bind] at h
            have hInv : InvSt st := processFiles_inv env meta (files.getD [])
              ⟨[], [], []⟩ st hgood
              ⟨List.nodup_nil, fun o ho => absurd ho (List.not_mem_nil o), rfl⟩ hst
            by_cases hsv : 0 < st.services.length
            · rw [if_pos hsv] at h
              cases hset : setTailAt (st.services.length - 1) (some "\n  ")
                  ((sortPairs (st.trunk.map (fun e => (svcKey e, e)))).map (fun q => q.2)) with
              | error ex =>
                rw [hset] at h
                simp only [bind, Except.bind] at h
                exact Except.noConfusion h
              | ok newTrunk =>
                rw [hset] at h
                simp only [bind, Except.bind, pure, Except.pure] at h
                cases h
                have hpd : (normalize_target (target.getD ""), mkDoc newTrunk) = (p, d) :=
                  Option.some.inj hw
                have hd : d = mkDoc newTrunk := (congrArg Prod.snd hpd).symm
                obtain ⟨ks, hk1, hk2⟩ := sorted_keys_of_inv st hInv _ _ newTrunk hset
                refine ⟨ks, ?_, hk2⟩
                rw [hd]
                exact hk1
            · rw [if_neg hsv] at h
              simp only [pure, Except.pure] at h
              cases h
              exact Option.noConfusion hw

/-- On a non-URL location, `valid_path` is just the filesystem check. -/
theorem valid_path_nonurl (env : Env) (f : String)
    (h1 : pyContains f "http://" = false) (h2 : pyContains f "https://" = false) :
    valid_path env f = Except.ok (env.fs_exists f) := by
  unfold valid_path
  rw [h1, h2]
  rfl

/-- Lemma: `collectLimb` on a fresh SIN appends the processed element. -/
theorem collectLimb_new (meta : Bool) (f : String) (st : CState) (limb : Elem)
    (svc : Option String) (limb' : Elem)
    (hP : processLimb meta limb = Except.ok (svc, limb')) (hmem : svc ∉ st.services) :
    collectLimb meta f st limb =
      Except.ok ⟨st.services ++ [svc], st.trunk ++ [tailFix limb'], st.exceptions⟩ := by
  unfold collectLimb
  rw [hP]
  simp only [bind, Except.bind, pure, Except.pure]
  rw [if_neg hmem]

/-- Lemma: `collectLimb` on an already-seen SIN records only the warning. -/
theorem collectLimb_dup (meta : Bool) (f : String) (st : CState) (limb : Elem)
    (svc : Option String) (limb' : Elem)
    (hP : processLimb meta limb = Except.ok (svc, limb')) (hmem : svc ∈ st.services) :
    collectLimb meta f st limb =
      Except.ok ⟨st.services, st.trunk, st.exceptions ++ [dupWarning f svc]⟩ := by
  unfold collectLimb
  rw [hP]
  simp only [bind, Except.bind, pure, Except.pure]
  rw [if_pos hmem]

/-- Lemma: `processFile` on a readable, well-shaped source document reduces to
the fold over its Service elements. -/
theorem processFile_doc (env : Env) (meta : Bool) (st : CState) (f : String) (l : List Elem)
    (h1 : pyContains f "http://" = false) (h2 : pyContains f "https://" = false)
    (hfs : env.fs_exists f = true) (hp : env.parse f = Except.ok (srcDoc l)) :
    processFile env meta st f =
      (List.foldlM (collectLimb meta f) st l).map (fun st' => (st', false)) := by
  unfold processFile
  rw [valid_path_nonurl env f h1 h2, hfs]
  simp only [bind, Except.bind, Bool.not_true, Bool.false_eq_true, if_false]
  rw [hp]
  simp only [bind, Except.bind]
  have hcond : (findAllTag "Services" (srcDoc l).children).isEmpty = false := rfl
  rw [hcond]
  simp only [Bool.false_eq_true, if_false]
  dsimp only [srcDoc, Elem.children]
  cases List.foldlM (collectLimb meta f) st l with
  | error ex => rfl
  | ok st1 => rfl

/-- Unfolding of `merge_mdf` past its configuration checks, with the
target-directory check result supplied as a hypothesis. -/
theorem merge_mdf_step (env : Env) (l : List String) (t : String) (meta : Bool)
    (hlen : 2 ≤ l.length) (dirOk : Bool)
    (hv : valid_path env (pyReplace (normalize_target t) (basenameP (normalize_target t)) "")
      = Except.ok dirOk) :
    merge_mdf env (some l) (some t) meta =
      (if dirOk then
        (do
          let st ← processFiles env meta ⟨[], [], []⟩ l
          if 0 < st.services.length then do
            let newTrunk ← setTailAt (st.services.length - 1) (some "\n  ")
              ((sortPairs (st.trunk.map (fun e => (svcKey e, e)))).map (fun q => q.2))
            pure { retval := if st.exceptions.isEmpty then none else some (joinNL st.exceptions),
                   written := some (normalize_target t, mkDoc newTrunk),
                   errlog := if st.exceptions.isEmpty then none
                     else some ((splitext t).1 ++ "_ERR.log", joinNL st.exceptions),
                   excList := st.exceptions }
          else
            pure { retval := some (joinNL (st.exceptions ++
                     ["ERROR: No Services found in source file set."])),
                   written := none,
                   errlog := some ((splitext t).1 ++ "_ERR.log", joinNL (st.exceptions ++
                     ["ERROR: No Services found in source file set."])),
                   excList := st.exceptions ++
                     ["ERROR: No Services found in source file set."] })
      else
        Except.ok { retval := some ("ERROR: Invalid target file/path " ++ normalize_target t),
                    written := none, errlog := none, excList := [] }) := by
  unfold merge_mdf
  dsimp only [Option.getD, Option.isNone]
  simp only [Bool.false_or]
  rw [if_neg (by simp only [decide_eq_true_eq]; exact Nat.not_lt.mpr hlen)]
  simp only [Bool.false_eq_true, if_false]
  rw [hv]
  simp only [bind, Except.bind]
  cases dirOk with
  | false => rfl
  | true => rfl

/-- C1: for two sources processed in caller-supplied order that share a
SIN (both `processLimb` runs report the same `svc`), the merged output
contains exactly one Service element for that SIN — the processed element
of the earlier-listed source (with the final tail fixup) — the run records
exactly one duplicate-SIN warning naming the later source, and the later
element's subtree (`sB'`) appears nowhere in the result. -/
theorem C1_first_wins_on_shared_sin (env : Env) (meta : Bool) (sA sB : Elem)
    (svc : Option String) (sA' sB' : Elem)
    (hfsA : env.fs_exists "a.idpmsg" = true) (hfsB : env.fs_exists "b.idpmsg" = true)
    (hdir : env.fs_exists "/tmp/" = true)
    (hpA : env.parse "a.idpmsg" = Except.ok (srcDoc [sA]))
    (hpB : env.parse "b.idpmsg" = Except.ok (srcDoc [sB]))
    (hA : processLimb meta sA = Except.ok (svc, sA'))
    (hB : processLimb meta sB = Except.ok (svc, sB')) :
    merge_mdf env (some ["a.idpmsg", "b.idpmsg"]) (some "/tmp/out.idpmsg") meta =
      Except.ok
        { retval := some (dupWarning "b.idpmsg" svc),
          written := some ("/tmp/out.idpmsg", mkDoc [sA'.setTail (some "\n  ")]),
          errlog := some ("/tmp/out_ERR.log", dupWarning "b.idpmsg" svc),
          excList := [dupWarning "b.idpmsg" svc] } := by
  have hv : valid_path env (pyReplace (normalize_target "/tmp/out.idpmsg")
      (basenameP (normalize_target "/tmp/out.idpmsg")) "") = Except.ok true := by
    rw [show pyReplace (normalize_target "/tmp/out.idpmsg")
        (basenameP (normalize_target "/tmp/out.idpmsg")) "" = "/tmp/" from by decide]
    rw [valid_path_nonurl env "/tmp/" (by decide) (by decide), hdir]
  rw [merge_mdf_step env ["a.idpmsg", "b.idpmsg"] "/tmp/out.idpmsg" meta (by decide) true hv,
    if_pos rfl]
  have hPF : processFiles env meta ⟨[], [], []⟩ ["a.idpmsg", "b.idpmsg"] =
      Except.ok ⟨[svc], [tailFix sA'], [dupWarning "b.idpmsg" svc]⟩ := by
    unfold processFiles
    rw [processFile_doc env meta ⟨[], [], []⟩ "a.idpmsg" [sA] (by decide) (by decide) hfsA hpA,
      List.foldlM_cons,
      collectLimb_new meta "a.idpmsg" ⟨[], [], []⟩ sA svc sA' hA (List.not_mem_nil svc)]
    simp only [bind, Except.bind, List.foldlM_nil, pure, Except.pure, Except.map,
      List.nil_append, Bool.false_eq_true, if_false]
    unfold processFiles
    rw [processFile_doc env meta ⟨[svc], [tailFix sA'], []⟩ "b.idpmsg" [sB]
        (by decide) (by decide) hfsB hpB,
      List.foldlM_cons,
      collectLimb_dup meta "b.idpmsg" ⟨[svc], [tailFix sA'], []⟩ sB svc sB' hB
        (List.mem_singleton.mpr rfl)]
    simp only [bind, Except.bind, List.foldlM_nil, pure, Except.pure, Except.map,
      List.nil_append, Bool.false_eq_true, if_false]
    unfold processFiles
    rfl
  rw [hPF]
  simp only [bind, Except.bind]
  rw [← setTail_tailFix (some "\n  ") sA']
  rfl


/-- Witness for C1: a two-file run sharing SIN 16 keeps the first file's
element and warns about the second file. -/
theorem C1_first_wins_on_shared_sin_witness :
    envC1.fs_exists "a.idpmsg" = true ∧
    envC1.parse "a.idpmsg" = Except.ok (srcDoc [svcElem "16"]) ∧
    processLimb false (svcElem "16") = Except.ok (some "16", svcElem "16") ∧
    merge_mdf envC1 (some ["a.idpmsg", "b.idpmsg"]) (some "/tmp/out.idpmsg") false =
      Except.ok
        { retval := some (dupWarning "b.idpmsg" (some "16")),
          written := some ("/tmp/out.idpmsg", mkDoc [(svcElem "16").setTail (some "\n  ")]),
          errlog := some ("/tmp/out_ERR.log", dupWarning "b.idpmsg" (some "16")),
          excList := [dupWarning "b.idpmsg" (some "16")] } :=
  ⟨rfl, rfl, rfl,
    C1_first_wins_on_shared_sin envC1 false (svcElem "16") (svcElem "16") (some "16")
      (svcElem "16") (svcElem "16") rfl rfl rfl rfl rfl rfl rfl⟩

/-- C10: the seen-SIN set spans the whole run, not one source: when a
single source holds two Service elements with the same SIN, only the
first occurrence reaches the output and the duplicate-SIN warning names
that same source.  (The second file here contributes an empty `Services`
container.) -/
theorem C10_dedup_within_single_source (env : Env) (meta : Bool) (sA1 sA2 : Elem)
    (svc : Option String) (sA1' sA2' : Elem)
    (hfsA : env.fs_exists "a.idpmsg" = true) (hfsB : env.fs_exists "b.idpmsg" = true)
    (hdir : env.fs_exists "/tmp/" = true)
    (hpA : env.parse "a.idpmsg" = Except.ok (srcDoc [sA1, sA2]))
    (hpB : env.parse "b.idpmsg" = Except.ok (srcDoc []))
    (h1 : processLimb meta sA1 = Except.ok (svc, sA1'))
    (h2 : processLimb meta sA2 = Except.ok (svc, sA2')) :
    merge_mdf env (some ["a.idpmsg", "b.idpmsg"]) (some "/tmp/out.idpmsg") meta =
      Except.ok
        { retval := some (dupWarning "a.idpmsg" svc),
          written := some ("/tmp/out.idpmsg", mkDoc [sA1'.setTail (some "\n  ")]),
          errlog := some ("/tmp/out_ERR.log", dupWarning "a.idpmsg" svc),
          excList := [dupWarning "a.idpmsg" svc] } := by
  have hv : valid_path env (pyReplace (normalize_target "/tmp/out.idpmsg")
      (basenameP (normalize_target "/tmp/out.idpmsg")) "") = Except.ok true := by
    rw [show pyReplace (normalize_target "/tmp/out.idpmsg")
        (basenameP (normalize_target "/tmp/out.idpmsg")) "" = "/tmp/" from by decide]
    rw [valid_path_nonurl env "/tmp/" (by decide) (by decide), hdir]
  rw [merge_mdf_step env ["a.idpmsg", "b.idpmsg"] "/tmp/out.idpmsg" meta (by decide) true hv,
    if_pos rfl]
  have hPF : processFiles env meta ⟨[], [], []⟩ ["a.idpmsg", "b.idpmsg"] =
      Except.ok ⟨[svc], [tailFix sA1'], [dupWarning "a.idpmsg" svc]⟩ := by
    unfold processFiles
    rw [processFile_doc env meta ⟨[], [], []⟩ "a.idpmsg" [sA1, sA2]
        (by decide) (by decide) hfsA hpA,
      List.foldlM_cons,
      collectLimb_new meta "a.idpmsg" ⟨[], [], []⟩ sA1 svc sA1' h1 (List.not_mem_nil svc)]
    simp only [bind, Except.bind, List.nil_append]
    rw [List.foldlM_cons,
      collectLimb_dup meta "a.idpmsg" ⟨[svc], [tailFix sA1'], []⟩ sA2 svc sA2' h2
        (List.mem_singleton.mpr rfl)]
    simp only [bind, Except.bind, List.foldlM_nil, pure, Except.pure, Except.map,
      List.nil_append, Bool.false_eq_true, if_false]
    unfold processFiles
    rw [processFile_doc env meta ⟨[svc], [tailFix sA1'], [dupWarning "a.idpmsg" svc]⟩
        "b.idpmsg" [] (by decide) (by decide) hfsB hpB]
    simp only [List.foldlM_nil, pure, Except.pure, Except.map, Bool.false_eq_true, if_false]
    unfold processFiles
    rfl
  rw [hPF]
  simp only [bind, Except.bind]
  rw [← setTail_tailFix (some "\n  ") sA1']
  rfl


/-- Witness for C10 at a concrete input. -/
theorem C10_dedup_within_single_source_witness :
    envC10.parse "a.idpmsg" = Except.ok (srcDoc [svcElem "16", svcElem "16"]) ∧
    processLimb false (svcElem "16") = Except.ok (some "16", svcElem "16") ∧
    merge_mdf envC10 (some ["a.idpmsg", "b.idpmsg"]) (some "/tmp/out.idpmsg") false =
      Except.ok
        { retval := some (dupWarning "a.idpmsg" (some "16")),
          written := some ("/tmp/out.idpmsg", mkDoc [(svcElem "16").setTail (some "\n  ")]),
          errlog := some ("/tmp/out_ERR.log", dupWarning "a.idpmsg" (some "16")),
          excList := [dupWarning "a.idpmsg" (some "16")] } :=
  ⟨rfl, rfl,
    C10_dedup_within_single_source envC10 false (svcElem "16") (svcElem "16") (some "16")
      (svcElem "16") (svcElem "16") rfl rfl rfl rfl rfl rfl rfl⟩

/-- C8: when the run reaches the source loop and no Service element is
collected from any source, `merge_mdf` appends the fatal
`"ERROR: No Services found in source file set."` diagnostic, writes no
output file, and writes only the error log. -/
theorem C8_no_services_fatal (env : Env) (l : List String) (meta : Bool) (st : CState)
    (hlen : 2 ≤ l.length) (hdir : env.fs_exists "/tmp/" = true)
    (hrun : processFiles env meta ⟨[], [], []⟩ l = Except.ok st)
    (hempty : st.services = []) :
    merge_mdf env (some l) (some "/tmp/out.idpmsg") meta =
      Except.ok
        { retval := some (joinNL (st.exceptions ++
            ["ERROR: No Services found in source file set."])),
          written := none,
          errlog := some ("/tmp/out_ERR.log", joinNL (st.exceptions ++
            ["ERROR: No Services found in source file set."])),
          excList := st.exceptions ++ ["ERROR: No Services found in source file set."] } := by
  have hv : valid_path env (pyReplace (normalize_target "/tmp/out.idpmsg")
      (basenameP (normalize_target "/tmp/out.idpmsg")) "") = Except.ok true := by
    rw [show pyReplace (normalize_target "/tmp/out.idpmsg")
        (basenameP (normalize_target "/tmp/out.idpmsg")) "" = "/tmp/" from by decide]
    rw [valid_path_nonurl env "/tmp/" (by decide) (by decide), hdir]
  rw [merge_mdf_step env l "/tmp/out.idpmsg" meta hlen true hv, if_pos rfl]
  rw [hrun]
  simp only [bind, Except.bind]
  rw [if_neg (by rw [hempty]; simp)]
  rfl


/-- Witness for C8 at a concrete input: both sources lack a Services
container, so nothing is collected and the fatal diagnostic is recorded. -/
theorem C8_no_services_fatal_witness :
    processFiles envC8 false ⟨[], [], []⟩ ["a.idpmsg", "b.idpmsg"] =
      Except.ok ⟨[], [],
        ["WARNING: Invalid Message Definition File - no Services in a.idpmsg",
         "WARNING: Invalid Message Definition File - no Services in b.idpmsg"]⟩ ∧
    merge_mdf envC8 (some ["a.idpmsg", "b.idpmsg"]) (some "/tmp/out.idpmsg") false =
      Except.ok
        { retval := some (joinNL
            (["WARNING: Invalid Message Definition File - no Services in a.idpmsg",
              "WARNING: Invalid Message Definition File - no Services in b.idpmsg"] ++
             ["ERROR: No Services found in source file set."])),
          written := none,
          errlog := some ("/tmp/out_ERR.log", joinNL
            (["WARNING: Invalid Message Definition File - no Services in a.idpmsg",
              "WARNING: Invalid Message Definition File - no Services in b.idpmsg"] ++
             ["ERROR: No Services found in source file set."])),
          excList :=
            ["WARNING: Invalid Message Definition File - no Services in a.idpmsg",
             "WARNING: Invalid Message Definition File - no Services in b.idpmsg"] ++
            ["ERROR: No Services found in source file set."] } :=
  ⟨rfl, C8_no_services_fatal envC8 ["a.idpmsg", "b.idpmsg"] false
    ⟨[], [],
      ["WARNING: Invalid Message Definition File - no Services in a.idpmsg",
       "WARNING: Invalid Message Definition File - no Services in b.idpmsg"]⟩
    (by decide) rfl rfl rfl⟩


/-- Counterexample to C7 as stated: `merge_mdf` is not non-throwing.  A
URL-shaped source path reaches `valid_path`, whose
`httplib.HTTPConnection` constructor raises `InvalidURL` (nonnumeric port
`//example.com`), and the exception propagates out of `merge_mdf`. -/
theorem C7_counterexample_merge_throws :
    merge_mdf envURL (some ["http://example.com", "b.idpmsg"]) (some "/tmp/out.idpmsg") false =
      Except.error PyExc.invalidURL := rfl

/-- C7 (amended): the return value distinguishes diagnostic-free success
(`None`, in which case no log is written and the output was produced)
from diagnostic-bearing runs (the newline-joined diagnostic string, also
written to the `_ERR.log` side file); but `merge_mdf` CAN throw to its
caller (see the counterexample), and output-produced versus failure is
not encoded in the return value beyond the diagnostic text itself. -/
theorem C7_amended_outcome (env : Env) (files : Option (List String))
    (target : Option String) (meta : Bool) (r : MergeResult)
    (h : merge_mdf env files target meta = Except.ok r) :
    (r.retval = none → r.excList = [] ∧ r.errlog = none ∧ r.written.isSome = true) ∧
    (r.excList ≠ [] → r.retval = some (joinNL r.excList) ∧
      ∃ q, r.errlog = some (q, joinNL r.excList)) := by
  unfold merge_mdf at h
  split at h
  · simp only [pure, Except.pure] at h
    cases h
    exact ⟨fun hc => Option.noConfusion hc, fun hc => absurd rfl hc⟩
  · split at h
    · simp only [pure, Except.pure] at h
      cases h
      exact ⟨fun hc => Option.noConfusion hc, fun hc => absurd rfl hc⟩
    · dsimp only [] at h
      cases hv : valid_path env (pyReplace (normalize_target (target.getD ""))
          (basenameP (normalize_target (target.getD ""))) "") with
      | error ex =>
        rw [hv] at h
        simp only [bind, Except.bind] at h
        exact Except.noConfusion h
      | ok dirOk =>
        rw [hv] at h
        simp only [bind, Except.bind] at h
        cases dirOk with
        | false =>
          simp only [Bool.not_false, if_pos, pure, Except.pure] at h
          cases h
          exact ⟨fun hc => Option.noConfusion hc, fun hc => absurd rfl hc⟩
        | true =>
          simp only [Bool.not_true, Bool.false_eq_true, if_false] at h
          cases hst : processFiles env meta ⟨[], [], []⟩ (files.getD []) with
          | error ex =>
            rw [hst] at h
            simp only [bind, Except.bind] at h
            exact Except.noConfusion h
          | ok st =>
            rw [hst] at h
            simp only [bind, Except.bind] at h
            by_cases hsv : 0 < st.services.length
            · rw [if_pos hsv] at h
              cases hset : setTailAt (st.services.length - 1) (some "\n  ")
                  ((sortPairs (st.trunk.map (fun e => (svcKey e, e)))).map (fun q => q.2)) with
              | error ex =>
                rw [hset] at h
                simp only [bind, Except.bind] at h
                exact Except.noConfusion h
              | ok newTrunk =>
                rw [hset] at h
                simp only [bind, Except.bind, pure, Except.pure] at h
                cases h
                by_cases he : st.exceptions.isEmpty = true
                · constructor
                  · intro _
                    refine ⟨List.isEmpty_iff.mp he, ?_, rfl⟩
                    simp only [if_pos he]
                  · intro hexc
                    exact absurd (List.isEmpty_iff.mp he) hexc
                · constructor
                  · intro hr
                    simp only [if_neg he] at hr
                    exact Option.noConfusion hr
                  · intro _
                    constructor
                    · simp only [if_neg he]
                    · exact ⟨(splitext (target.getD "")).1 ++ "_ERR.log",
                        by simp only [if_neg he]⟩
            · rw [if_neg hsv] at h
              simp only [pure, Except.pure] at h
              cases h
              constructor
              · intro hr
                exact Option.noConfusion hr
              · intro _
                exact ⟨rfl, _, rfl⟩

/-- Witness for C7 (amended): a diagnostic-free successful run. -/
theorem C7_amended_outcome_witness :
    merge_mdf envURL (some ["a.idpmsg", "b.idpmsg"]) (some "/tmp/out.idpmsg") false =
      Except.ok
        { retval := some (dupWarning "b.idpmsg" (some "16")),
          written := some ("/tmp/out.idpmsg", mkDoc [(svcElem "16").setTail (some "\n  ")]),
          errlog := some ("/tmp/out_ERR.log", dupWarning "b.idpmsg" (some "16")),
          excList := [dupWarning "b.idpmsg" (some "16")] } ∧
    (([dupWarning "b.idpmsg" (some "16")] : List String) ≠ [] →
      (some (dupWarning "b.idpmsg" (some "16")) : Option String) =
          some (joinNL [dupWarning "b.idpmsg" (some "16")]) ∧
        ∃ q, (some ("/tmp/out_ERR.log", dupWarning "b.idpmsg" (some "16")) :
            Option (String × String)) = some (q, joinNL [dupWarning "b.idpmsg" (some "16")])) :=
  ⟨rfl,
    (C7_amended_outcome envURL (some ["a.idpmsg", "b.idpmsg"]) (some "/tmp/out.idpmsg") false
      { retval := some (dupWarning "b.idpmsg" (some "16")),
        written := some ("/tmp/out.idpmsg", mkDoc [(svcElem "16").setTail (some "\n  ")]),
        errlog := some ("/tmp/out_ERR.log", dupWarning "b.idpmsg" (some "16")),
        excList := [dupWarning "b.idpmsg" (some "16")] } rfl).2⟩

/-- C3: with `files` equal to `None` or holding fewer than two entries,
or with `target` equal to `None`, `merge_mdf` returns the corresponding
configuration-error string immediately and performs no file I/O: no
output file and no error-log file is recorded, and no oracle result is
consulted (the result is the same for every environment). -/
theorem C3_config_error_no_io (env : Env) (files : Option (List String))
    (target : Option String) (meta : Bool)
    (h : files = none ∨ (∃ l, files = some l ∧ l.length < 2) ∨ target = none) :
    merge_mdf env files target meta =
        Except.ok ⟨some "No files to merge.", none, none, []⟩ ∨
      merge_mdf env files target meta =
        Except.ok ⟨some "No target file to output.", none, none, []⟩ := by
  unfold merge_mdf
  rcases h with h | ⟨l, hl, hlen⟩ | h
  · subst h
    left
    rfl
  · subst hl
    left
    rw [if_pos (by simp [hlen])]
    rfl
  · subst h
    cases files with
    | none =>
      left
      rfl
    | some l =>
      by_cases hlen : l.length < 2
      · left
        rw [if_pos (by simp [hlen])]
        rfl
      · right
        rw [if_neg (by simp [hlen]), if_pos (by simp)]
        rfl


/-- Witness for C3 at `files = none`. -/
theorem C3_config_error_no_io_witness :
    merge_mdf envTriv none (some "t.idpmsg") false =
        Except.ok ⟨some "No files to merge.", none, none, []⟩ ∨
      merge_mdf envTriv none (some "t.idpmsg") false =
        Except.ok ⟨some "No target file to output.", none, none, []⟩ :=
  C3_config_error_no_io envTriv none (some "t.idpmsg") false (Or.inl rfl)

/-- C4 (code evaluated at the failing input): for EVERY environment —
no network or filesystem involved — `valid_path` on an HTTP(S) URL raises
`InvalidURL` instead of returning a boolean: the whole URL is passed to
`httplib.HTTP(S)Connection` as the host, whose port parsing sees the
nonnumeric `//example.com` after the scheme colon and raises in the
constructor, before any HEAD request. -/
theorem C4_valid_path_url_raises (env : Env) :
    valid_path env "http://example.com" = Except.error PyExc.invalidURL ∧
      valid_path env "https://example.com" = Except.error PyExc.invalidURL :=
  ⟨rfl, rfl⟩


/-- C5 (code evaluated at the failing input): a Service element missing
its optional `SIN` child makes `merge_mdf` raise `AttributeError`
(`limb.find('SIN')` is `None` and has no `.text`) instead of treating the
missing text as the empty value. -/
theorem C5_missing_sin_raises :
    merge_mdf envC5 (some ["a.idpmsg", "b.idpmsg"]) (some "/tmp/out.idpmsg") false =
      Except.error PyExc.attributeError := rfl


/-- Counterexample to C6 as stated: the second source's Service is a
duplicate of SIN 1, so by the claim it would be rejected unmodified and
the run would end with only a duplicate warning; instead the code
normalizes the element's Description BEFORE the dedup decision and the
run crashes in `clean_desc(None)` with `AttributeError`. -/
theorem C6_counterexample_dup_is_processed :
    merge_mdf envC6 (some ["a.idpmsg", "b.idpmsg"]) (some "/tmp/out.idpmsg") false =
      Except.error PyExc.attributeError := rfl

/-- C6 (amended): normalization and annotation happen BEFORE the dedup
decision: for an element whose SIN is already seen, `collectLimb` is
exactly `processLimb` followed by recording the duplicate warning — the
processing (and any crash in it) happens, and only the element's
membership in the output is denied. -/
theorem C6_amended_processing_precedes_dedup (meta : Bool) (f : String) (st : CState)
    (limb : Elem)
    (hdup : ∀ svc limb', processLimb meta limb = Except.ok (svc, limb') →
      svc ∈ st.services) :
    collectLimb meta f st limb =
      (processLimb meta limb).map
        (fun rr => { st with exceptions := st.exceptions ++ [dupWarning f rr.1] }) := by
  unfold collectLimb
  cases hP : processLimb meta limb with
  | error ex => rfl
  | ok rr =>
    obtain ⟨svc, limb'⟩ := rr
    simp only [bind, Except.bind, Except.map]
    rw [if_pos (hdup svc limb' hP)]
    rfl

/-- Witness for C6 (amended) at a concrete seen SIN. -/
theorem C6_amended_processing_precedes_dedup_witness :
    (∀ svc limb', processLimb false (svcElem "1") = Except.ok (svc, limb') →
      svc ∈ ([some "1"] : List (Option String))) ∧
    collectLimb false "b.idpmsg" ⟨[some "1"], [], []⟩ (svcElem "1") =
      (processLimb false (svcElem "1")).map
        (fun rr => { services := [some "1"], trunk := ([] : List Elem),
                     exceptions := [] ++ [dupWarning "b.idpmsg" rr.1] }) := by
  have hd : ∀ svc limb', processLimb false (svcElem "1") = Except.ok (svc, limb') →
      svc ∈ ([some "1"] : List (Option String)) := by
    intro svc limb' h
    have h2 : ((some "1" : Option String), svcElem "1") = (svc, limb') := Except.ok.inj h
    injection h2 with h3 _
    rw [← h3]
    exact List.mem_singleton.mpr rfl
  exact ⟨hd, C6_amended_processing_precedes_dedup false "b.idpmsg"
    ⟨[some "1"], [], []⟩ (svcElem "1") hd⟩

/-- C9 (code evaluated at the failing input): `normalize_target` keeps a
target that already ends in `.idpmsg` unchanged, but for a target with no
extension `str.replace('', '.idpmsg')` inserts the suffix between every
character and at both ends instead of appending it, and a whole run with
target `"out"` records its output under that garbled path. -/
theorem C9_extension_replace_bug :
    normalize_target "/tmp/out.idpmsg" = "/tmp/out.idpmsg" ∧
    normalize_target "out" = ".idpmsgo.idpmsgu.idpmsgt.idpmsg" ∧
    normalize_target "out" ≠ "out.idpmsg" ∧
    (merge_mdf envURL (some ["a.idpmsg", "b.idpmsg"]) (some "out") false).map
        (fun r => r.written.map Prod.fst) =
      Except.ok (some ".idpmsgo.idpmsgu.idpmsgt.idpmsg") :=
  ⟨rfl, rfl, by decide, rfl⟩


/-- Witness for C2: the concrete run writes SINs 20, 16, 24 back in the
strictly increasing order 16, 20, 24. -/
theorem C2_output_sorted_by_sin_witness :
    GoodParse envC2 ∧
    ∃ ks : List String,
      (servicesOf (mkDoc [svcElem "16", svcElem "20",
        (svcElem "24").setTail (some "\n  ")])).map svcKey = ks.map some ∧
      ks.Pairwise (fun a b => strLt a b = true) := by
  have hg : GoodParse envC2 := by
    intro f e h
    unfold envC2 at h
    dsimp only [] at h
    split at h
    · cases h
      decide
    · cases h
      decide
  refine ⟨hg, C2_output_sorted_by_sin envC2 (some ["a.idpmsg", "b.idpmsg"])
    (some "/tmp/out.idpmsg") false
    { retval := none,
      written := some ("/tmp/out.idpmsg", mkDoc [svcElem "16", svcElem "20",
        (svcElem "24").setTail (some "\n  ")]),
      errlog := none, excList := [] } "/tmp/out.idpmsg"
    (mkDoc [svcElem "16", svcElem "20", (svcElem "24").setTail (some "\n  ")]) hg rfl rfl⟩
